import Mathlib

/-!
Verification development for the cortexa-trade-ai core: the feature/label
pipeline, the online trainer's update state machine, the backtest engine
(`backtest_with_cost_cap`) and the daily scheduler batch.

Numeric model: pandas/numpy float columns are embedded as `List (Option ℚ)`,
with `none` standing for a missing value (NaN).  The sources' only routes to
non-finite values are divisions (pandas replaces `±inf` by NaN before the
final `dropna`, and explicitly `replace(0, np.nan)`s the denominators it
worries about), so division by zero is modelled directly as `none`.
Square roots (used by rolling standard deviations) are not rational, so the
feature builders take the square-root function as an explicit parameter
`sq : ℚ → ℚ`; every theorem below is quantified over it.
-/

namespace Cortexa

set_option maxRecDepth 100000

/-- A float cell: `none` is NaN (or an infinity, which the pipelines always
turn into NaN before it can be observed). -/
abbrev F := Option ℚ

/-- NaN-propagating addition. -/
def fadd : F → F → F
  | some x, some y => some (x + y)
  | _, _ => none

/-- NaN-propagating subtraction. -/
def fsub : F → F → F
  | some x, some y => some (x - y)
  | _, _ => none

/-- NaN-propagating multiplication. -/
def fmul : F → F → F
  | some x, some y => some (x * y)
  | _, _ => none

/-- NaN-propagating division; division by zero gives NaN (the sources never
let a produced infinity survive to an output row). -/
def fdiv : F → F → F
  | some x, some y => if y = 0 then none else some (x / y)
  | _, _ => none

/-- NaN-propagating absolute value. -/
def fabs : F → F := Option.map (fun v => |v|)

/-- Strict greater-than on cells; any comparison with NaN is `false`
(numpy/pandas semantics). -/
def fgt : F → F → Bool
  | some x, some y => decide (y < x)
  | _, _ => false

/-- Strict less-than on cells; any comparison with NaN is `false`. -/
def flt : F → F → Bool
  | some x, some y => decide (x < y)
  | _, _ => false

/-- Row-wise maximum of three cells skipping NaN (`pd.concat(...).max(axis=1)`
with the default `skipna=True`): NaN only when all three are NaN. -/
def fmax3 (a b c : F) : F :=
  match ([a, b, c].filterMap id : List ℚ) with
  | [] => none
  | x :: xs => some (xs.foldl max x)

/-- `Series.replace(0, np.nan)` on a cell. -/
def replace0 (x : F) : F := if x = some 0 then none else x

/-- Each output element is a function of the input prefix up to and including
that position.  All the pandas column operators used by the sources
(`ewm`, `diff`, `pct_change`, `shift`, `rolling`) are of this shape, which is
exactly what makes the pipeline free of lookahead. -/
def prefixMap (f : List α → β) (l : List α) : List β :=
  (List.range l.length).map (fun i => f (l.take (i + 1)))

/-- The cell `j` positions back from the end of a prefix (`none` when the
prefix is too short). -/
def back (p : List F) (j : ℕ) : F := (p.reverse.get? j).getD none

/-- One step of `ewm(adjust=False).mean()`: NaN input carries the previous
state (inputs in these pipelines are NaN only on a leading segment, where the
output is NaN until the first valid value, as in pandas). -/
def ewmStep (a : ℚ) (s : F) (x : F) : F :=
  match x with
  | none => s
  | some v =>
    match s with
    | none => some v
    | some y => some ((1 - a) * y + a * v)

/-- `ewm(alpha=a, adjust=False).mean()` evaluated at the end of a prefix. -/
def ewmLast (a : ℚ) (p : List F) : F := p.foldl (ewmStep a) none

/-- `Series.ewm(alpha=a, adjust=False).mean()`. -/
def ewm_mean (a : ℚ) (s : List F) : List F := prefixMap (ewmLast a) s

/-- Source `ema(s, span)`: `s.ewm(span=span, adjust=False).mean()`,
whose decay is `alpha = 2/(span+1)`. -/
def ema (s : List F) (span : ℕ) : List F :=
  ewm_mean (2 / ((span : ℚ) + 1)) s

/-- `Series.diff()`. -/
def diffS (s : List F) : List F :=
  prefixMap (fun p => fsub (back p 0) (back p 1)) s

/-- `Series.pct_change(k)` (the inputs it is applied to carry no NaN, so no
fill is involved). -/
def pct_change (s : List F) (k : ℕ) : List F :=
  prefixMap (fun p => fsub (fdiv (back p 0) (back p k)) (some 1)) s

/-- `Series.shift(1)`. -/
def shift1 (s : List F) : List F := prefixMap (fun p => back p 1) s

/-- `Series.rolling(n, min_periods=n)` followed by an aggregation: NaN until
the window is full or while it still contains a NaN (the default
`min_periods = n` counts non-null entries). -/
def rollingApply (n : ℕ) (agg : List ℚ → ℚ) (s : List F) : List F :=
  prefixMap (fun p =>
    if n = 0 then none
    else if p.length < n then none
    else
      let w := (p.reverse.take n).filterMap id
      if w.length = n then some (agg w) else none) s

/-- Mean of a bag of rationals. -/
def meanQ (l : List ℚ) : ℚ := l.sum / l.length

/-- Population variance (`ddof=0`). -/
def var0 (l : List ℚ) : ℚ := meanQ (l.map (fun x => (x - meanQ l) ^ 2))

/-- Sample variance (`ddof=1`, pandas' rolling `std()` default). -/
def var1 (l : List ℚ) : ℚ :=
  (l.map (fun x => (x - meanQ l) ^ 2)).sum / ((l.length : ℚ) - 1)

/-- `rolling(n).mean()`. -/
def rolling_mean (n : ℕ) (s : List F) : List F := rollingApply n meanQ s

/-- `rolling(n).sum()`. -/
def rolling_sum (n : ℕ) (s : List F) : List F :=
  rollingApply n (fun l => l.sum) s

/-- `rolling(n).std(ddof=0)` through the abstract square root `sq`. -/
def rolling_std0 (sq : ℚ → ℚ) (n : ℕ) (s : List F) : List F :=
  rollingApply n (fun l => sq (var0 l)) s

/-- `rolling(n).std()` (`ddof=1`) through the abstract square root `sq`. -/
def rolling_std1 (sq : ℚ → ℚ) (n : ℕ) (s : List F) : List F :=
  rollingApply n (fun l => sq (var1 l)) s

/-- Insertion into a sorted list (ascending). -/
def insertSorted (x : ℚ) : List ℚ → List ℚ
  | [] => [x]
  | y :: ys => if x ≤ y then x :: y :: ys else y :: insertSorted x ys

/-- Insertion sort (ascending), used by the quantile aggregation. -/
def sortQ : List ℚ → List ℚ
  | [] => []
  | x :: xs => insertSorted x (sortQ xs)

/-- Quantile with pandas' default linear interpolation. -/
def quantileQ (q : ℚ) (l : List ℚ) : ℚ :=
  let v := sortQ l
  let h := q * ((v.length : ℚ) - 1)
  let lo := (Int.floor h).toNat
  let frac := h - (lo : ℚ)
  match v.get? lo, v.get? (lo + 1) with
  | some a, some b => a + frac * (b - a)
  | some a, none => a
  | none, _ => 0

/-- `rolling(n, min_periods=n).quantile(q)`. -/
def rolling_quantile (q : ℚ) (n : ℕ) (s : List F) : List F :=
  rollingApply n (quantileQ q) s

/-- Pointwise binary column operation. -/
def lift2 (g : F → F → F) (a b : List F) : List F := List.zipWith g a b

/-- Pointwise unary column operation. -/
def lift1 (g : F → F) (a : List F) : List F := a.map g

/-- Row-wise ternary zip, used for the true range's three candidates. -/
def zip3 (g : F → F → F → F) : List F → List F → List F → List F
  | a :: as, b :: bs, c :: cs => g a b c :: zip3 g as bs cs
  | _, _, _ => []

/-! ## Technical indicators

These embed the indicator functions of `src/crypto_model_backtest.py` and
`src/online_crypto_trainer.py` (the two files contain textually identical
definitions) plus the `rsi` of `src/feature_engineering.py`, which computes
the same formula. -/

/-- `rsi(close, period)`: Wilder RSI via `ewm(alpha=1/period, adjust=False)`
with the `1e-12` guard in the denominator. -/
def rsi (close : List F) (period : ℕ) : List F :=
  let delta := diffS close
  let up := lift1 (Option.map (fun v => max v 0)) delta
  let down := lift1 (Option.map (fun v => max (-v) 0)) delta
  let roll_up := ewm_mean (1 / (period : ℚ)) up
  let roll_down := ewm_mean (1 / (period : ℚ)) down
  let rs := lift2 fdiv roll_up (lift1 (fun x => fadd x (some (1 / 10 ^ 12))) roll_down)
  lift1 (fun r => fsub (some 100) (fdiv (some 100) (fadd (some 1) r))) rs

/-- `macd(close, fast, slow, signal)`: MACD line, its EMA signal line, and the
histogram. -/
def macd (close : List F) (fast slow sig : ℕ) : List F × List F × List F :=
  let macd_line := lift2 fsub (ema close fast) (ema close slow)
  let signal_line := ewm_mean (2 / ((sig : ℚ) + 1)) macd_line
  (macd_line, signal_line, lift2 fsub macd_line signal_line)

/-- `bollinger(close, period, k)`: rolling mean/stdev band and the normalized
band position `bbp`, with the `(upper-lower).replace(0, np.nan)` guard. -/
def bollinger (sq : ℚ → ℚ) (close : List F) (period : ℕ) (k : ℚ) :
    List F × List F × List F × List F :=
  let mavg := rolling_mean period close
  let mstd := rolling_std0 sq period close
  let upper := lift2 (fun m s => fadd m (fmul (some k) s)) mavg mstd
  let lower := lift2 (fun m s => fsub m (fmul (some k) s)) mavg mstd
  let bbp := lift2 fdiv (lift2 fsub close lower)
    (lift1 replace0 (lift2 fsub upper lower))
  (mavg, upper, lower, bbp)

/-- `true_range(high, low, close)`: row max (skipping NaN) of the three
candidate ranges against the previous close. -/
def true_range (high low close : List F) : List F :=
  let prev_close := shift1 close
  let tr1 := lift2 fsub high low
  let tr2 := lift2 (fun a b => fabs (fsub a b)) high prev_close
  let tr3 := lift2 (fun a b => fabs (fsub a b)) low prev_close
  zip3 fmax3 tr1 tr2 tr3

/-- `atr(high, low, close, period)`. -/
def atr (high low close : List F) (period : ℕ) : List F :=
  rolling_mean period (true_range high low close)

/-- `adx(high, low, close, period)` with numpy's NaN-comparisons-are-false
directional moves and the `replace(0, np.nan)` guard of `dx`. -/
def adx (high low close : List F) (period : ℕ) : List F :=
  let up_move := diffS high
  let down_move := lift1 (Option.map Neg.neg) (diffS low)
  let plus_dm := lift2 (fun u d => if fgt u d && fgt u (some 0) then u else some 0)
    up_move down_move
  let minus_dm := lift2 (fun u d => if fgt d u && fgt d (some 0) then d else some 0)
    up_move down_move
  let tr := true_range high low close
  let atr_n := rolling_mean period tr
  let plus_di := lift2 (fun s a => fdiv (fmul (some 100) s) (fmul a (some (period : ℚ))))
    (rolling_sum period plus_dm) atr_n
  let minus_di := lift2 (fun s a => fdiv (fmul (some 100) s) (fmul a (some (period : ℚ))))
    (rolling_sum period minus_dm) atr_n
  let dx := lift2 (fun d s => fdiv (fmul (some 100) (fabs d)) (replace0 s))
    (lift2 fsub plus_di minus_di) (lift2 fadd plus_di minus_di)
  rolling_mean period dx

/-! ## Feature builders -/

/-- One OHLCV bar; the downloaders drop non-finite bars, so all five fields
are plain rationals. -/
structure Bar where
  open_ : ℚ
  high : ℚ
  low : ℚ
  close : ℚ
  volume : ℚ
deriving DecidableEq, Repr

/-- The `Open` column as cells. -/
def colOpen (bars : List Bar) : List F := bars.map (fun b => some b.open_)

/-- The `High` column as cells. -/
def colHigh (bars : List Bar) : List F := bars.map (fun b => some b.high)

/-- The `Low` column as cells. -/
def colLow (bars : List Bar) : List F := bars.map (fun b => some b.low)

/-- The `Close` column as cells. -/
def colClose (bars : List Bar) : List F := bars.map (fun b => some b.close)

/-- The `Volume` column as cells. -/
def colVolume (bars : List Bar) : List F := bars.map (fun b => some b.volume)

/-- The columns of the frame produced by `build_features` before `dropna`,
in assignment order:
`Open, High, Low, Close, Volume, ema20, ema50, ema200, ema20_dist, ema50_dist,
ema200_dist, rsi14, macd, macd_signal, macd_hist, bb_mid, bb_up, bb_low, bbp,
atr14, atr_pct, adx14, ret_1d, vol_10, mom_3, mom_7, mom_14`. -/
def build_features_cols (sq : ℚ → ℚ) (bars : List Bar) : List (List F) :=
  let close := colClose bars
  let high := colHigh bars
  let low := colLow bars
  let ema20 := ema close 20
  let ema50 := ema close 50
  let ema200 := ema close 200
  let m := macd close 12 26 9
  let b := bollinger sq close 20 2
  let atr14 := atr high low close 14
  let ret_1d := pct_change close 1
  [colOpen bars, high, low, close, colVolume bars,
   ema20, ema50, ema200,
   lift2 (fun c e => fsub (fdiv c e) (some 1)) close ema20,
   lift2 (fun c e => fsub (fdiv c e) (some 1)) close ema50,
   lift2 (fun c e => fsub (fdiv c e) (some 1)) close ema200,
   rsi close 14,
   m.1, m.2.1, m.2.2,
   b.1, b.2.1, b.2.2.1, b.2.2.2,
   atr14,
   lift2 fdiv atr14 close,
   adx high low close 14,
   ret_1d,
   rollingApply 10 (fun l => sq (var0 l)) ret_1d,
   pct_change close 3,
   pct_change close 7,
   pct_change close 14]

/-- Assemble per-position rows from a list of columns (`n` is the frame
length). -/
def rowsOf (n : ℕ) (cols : List (List F)) : List (List F) :=
  (List.range n).map (fun i => cols.map (fun c => (c.get? i).getD none))

/-- `dropna()` keeping the original positional index as the row label:
the surviving rows, each paired with the index it had in the input frame. -/
def dropnaIdx (rows : List (List F)) : List (ℕ × List F) :=
  rows.enum.filter (fun p => p.2.all (fun x => x.isSome))

/-- `build_features(df)` of `src/online_crypto_trainer.py` (and, identically,
`src/crypto_model_backtest.py`): indicator columns appended to the OHLCV
frame, `replace([inf,-inf], nan)` (absorbed into the `none` division model)
and `dropna()`.  The result keeps each surviving row's original bar index as
its label. -/
def build_features (sq : ℚ → ℚ) (bars : List Bar) : List (ℕ × List F) :=
  dropnaIdx (rowsOf bars.length (build_features_cols sq bars))

/-- Column order of `build_features` output rows. -/
def bfCols : List String :=
  ["Open", "High", "Low", "Close", "Volume", "ema20", "ema50", "ema200",
   "ema20_dist", "ema50_dist", "ema200_dist", "rsi14", "macd", "macd_signal",
   "macd_hist", "bb_mid", "bb_up", "bb_low", "bbp", "atr14", "atr_pct",
   "adx14", "ret_1d", "vol_10", "mom_3", "mom_7", "mom_14"]

/-- The trainer's `FEATURES` list (model input columns). -/
def FEATURES : List String :=
  ["ema20_dist", "ema50_dist", "ema200_dist", "rsi14", "macd", "macd_signal",
   "macd_hist", "bbp", "atr_pct", "adx14", "ret_1d", "vol_10", "mom_3",
   "mom_7", "mom_14"]

/-- Extract the `FEATURES` cells from a `build_features` row (all are present
after `dropna`; absent cells default to 0, unreachable on real rows). -/
def featuresOf (cells : List F) : List ℚ :=
  FEATURES.map (fun nm => ((cells.get? (bfCols.indexOf nm)).getD none).getD 0)

/-- The columns of the frame produced by `make_features` before `dropna`, in
assignment order:
`open, high, low, close, volume, ret1, ema9, ema20, ema_ratio, rsi14, atr14,
vol_z, wick_upper_ratio, wick_lower_ratio`. -/
def make_features_cols (sq : ℚ → ℚ) (bars : List Bar) : List (List F) :=
  let close := colClose bars
  let high := colHigh bars
  let low := colLow bars
  let open_ := colOpen bars
  let volume := colVolume bars
  let ema9 := ewm_mean (2 / ((9 : ℚ) + 1)) close
  let ema20 := ewm_mean (2 / ((20 : ℚ) + 1)) close
  let vmean := rolling_mean 50 volume
  let vstd := rolling_std1 sq 50 volume
  let body := lift2 (fun c o => fabs (fsub c o)) close open_
  let upper := lift2 (fun h m => Option.map (fun v => max v 0) (fsub h m)) high
    (lift2 (fun o c => match o, c with
      | some x, some y => some (max x y)
      | _, _ => none) open_ close)
  let lower := lift2 (fun m l => Option.map (fun v => max v 0) (fsub m l))
    (lift2 (fun o c => match o, c with
      | some x, some y => some (min x y)
      | _, _ => none) open_ close) low
  [open_, high, low, close, volume,
   pct_change close 1,
   ema9, ema20,
   lift2 (fun a b => fsub (fdiv a (fadd b (some (1 / 10 ^ 12)))) (some 1)) ema9 ema20,
   rsi close 14,
   rolling_mean 14 (lift2 (fun h l => fabs (fsub h l)) high low),
   lift2 (fun d s => fdiv d (fadd s (some (1 / 10 ^ 12))))
     (lift2 fsub volume vmean) vstd,
   lift2 (fun u b => fdiv u (fadd b (some (1 / 10 ^ 9)))) upper body,
   lift2 (fun l b => fdiv l (fadd b (some (1 / 10 ^ 9)))) lower body]

/-- `make_features(df)` of `src/feature_engineering.py`: derived columns plus
`dropna()`; the original positional index of each surviving row is kept as
its label (the source's `reset_index(drop=True)` merely renumbers the
surviving rows in order, which the label makes explicit). -/
def make_features (sq : ℚ → ℚ) (bars : List Bar) : List (ℕ × List F) :=
  dropnaIdx (rowsOf bars.length (make_features_cols sq bars))

/-! ## Labelers -/

/-- The `Close` cell of a `build_features` row. -/
def closeCell (cells : List F) : F := (cells.get? (bfCols.indexOf "Close")).getD none

/-- A row of the labeled table built by `label_future`: the feature row (with
its original bar index), the forward return and the binary target. -/
structure LabeledRow where
  idx : ℕ
  cells : List F
  future_ret : F
  target : ℤ
deriving DecidableEq

/-- `label_future(df_feats, horizon, threshold)` of
`src/online_crypto_trainer.py` (identical in `src/crypto_model_backtest.py`):
`future_ret = Close.shift(-horizon)/Close - 1` over the feature table's own
rows, `target = (future_ret > threshold).astype(int)`, then `iloc[:-horizon]`
(which for `horizon = 0` is the empty slice). -/
def label_future (df : List (ℕ × List F)) (horizon : ℕ) (threshold : ℚ) :
    List LabeledRow :=
  let n := df.length
  let rows := (List.range n).map (fun p =>
    let r := (df.get? p).getD (0, [])
    let fut := match df.get? (p + horizon) with
      | some r2 => closeCell r2.2
      | none => none
    let fr := fsub (fdiv fut (closeCell r.2)) (some 1)
    ⟨r.1, r.2, fr, if fgt fr (some threshold) then 1 else 0⟩)
  match horizon with
  | 0 => []
  | _ + 1 => rows.take (n - horizon)

/-- An input row for `label_future_return`; only the `close` column is read
(remaining feature columns do not participate in the labeling). -/
structure CloseRow where
  close : ℚ
deriving DecidableEq

/-- An output row of `label_future_return`. -/
structure LabeledFR where
  close : ℚ
  y_class : ℤ
  tp_pct : ℚ
  sl_pct : ℚ
deriving DecidableEq

/-- `clip(lo, hi)` on a rational. -/
def clipQ (lo hi v : ℚ) : ℚ := min (max v lo) hi

/-- `label_future_return(df, n, thr_long, thr_short)` of `src/labeling.py`:
forward return over `n` rows, three-way class via `np.where` (NaN
comparisons are false, so rows without forward data get class 0), TP/SL from
rolling quantiles `fillna(0.003).clip(0.001, 0.02)`, then
`dropna(subset=["y_class","tp_pct","sl_pct"])` and `reset_index(drop=True)`. -/
def label_future_return (df : List CloseRow) (n : ℕ) (thr_long thr_short : ℚ) :
    List LabeledFR :=
  let closeF : List F := df.map (fun r => some r.close)
  let fut := (List.range df.length).map (fun i => (closeF.get? (i + n)).getD none)
  let ret := List.zipWith (fun f c => fsub (fdiv f c) (some 1)) fut closeF
  let y : List ℤ := ret.map (fun r =>
    if fgt r (some thr_long) then 1 else if flt r (some (-thr_short)) then -1 else 0)
  let win := rolling_quantile (4 / 5) n ret
  let lose := (rolling_quantile (1 / 5) n ret).map (Option.map Neg.neg)
  let tp := (win.map (fun x => some (x.getD (3 / 1000)))).map
    (Option.map (clipQ (1 / 1000) (1 / 50)))
  let sl := (lose.map (fun x => some (x.getD (3 / 1000)))).map
    (Option.map (clipQ (1 / 1000) (1 / 50)))
  let rows := (List.range df.length).map (fun i =>
    (((df.get? i).getD ⟨0⟩).close, (y.get? i).getD 0,
      (tp.get? i).getD none, (sl.get? i).getD none))
  (rows.filter (fun r => r.2.2.1.isSome && r.2.2.2.isSome)).map
    (fun r => ⟨r.1, r.2.1, (r.2.2.1.getD 0), (r.2.2.2.getD 0)⟩)

/-! ## Backtest engine (`backtest_with_cost_cap`) -/

/-- One row of the prediction table handed to the backtest: the model
probability and the realized forward-return column.  The table is taken in
index order (the source's `sort_index()` is the identity on an
already-sorted frame). -/
structure PredRow where
  proba : ℚ
  future_ret : ℚ
deriving DecidableEq

/-- The summary record returned by the backtest. -/
structure StrategyMetrics where
  n_trades : ℕ
  hit_rate : ℚ
  avg_win : ℚ
  avg_loss : ℚ
  total_return : ℚ
  mdd : ℚ
  equity_last : ℚ
deriving DecidableEq

/-- `np.where(dfp["proba"] >= signal_threshold)[0]`: the positions whose
probability reaches the signal threshold, ascending. -/
def signal_days (rows : List PredRow) (signal_threshold : ℚ) : List ℕ :=
  (rows.enum.filter (fun p => decide (signal_threshold ≤ p.2.proba))).map
    (fun p => p.1)

/-- `equity.iloc[j:] *= f`. -/
def suffix_mul (e : List ℚ) (j : ℕ) (f : ℚ) : List ℚ :=
  e.enum.map (fun p => if j ≤ p.1 then p.2 * f else p.2)

/-- The signal loop of `backtest_with_cost_cap`: for each signal day `i`, if
the close index `j = i + horizon` exists, read the raw return from row `j`,
compound `eq = last_eq * (1 + cap*(raw - 2*cost))`, bump the equity suffix by
`eq / last_eq` and record the raw return; a trailing signal `break`s out.
State: `(equity, last_eq, trades)`. -/
def trade_loop (rows : List PredRow) (horizon : ℕ) (cost cap : ℚ) :
    List ℕ → List ℚ × ℚ × List ℚ → List ℚ × ℚ × List ℚ
  | [], st => st
  | i :: rest, (equity, last_eq, trades) =>
    if i + horizon < rows.length then
      let raw := ((rows.get? (i + horizon)).getD ⟨0, 0⟩).future_ret
      let eq2 := last_eq * (1 + cap * (raw - 2 * cost))
      trade_loop rows horizon cost cap rest
        (suffix_mul equity (i + horizon) (eq2 / last_eq), eq2, trades ++ [raw])
    else (equity, last_eq, trades)

/-- Running maximum of the equity curve (`equity.cummax()`). -/
def cummaxGo (m : ℚ) : List ℚ → List ℚ
  | [] => []
  | x :: xs => max m x :: cummaxGo (max m x) xs

/-- `Series.cummax()`. -/
def cummax : List ℚ → List ℚ
  | [] => []
  | x :: xs => x :: cummaxGo x xs

/-- `Series.min()` of a nonempty series (0 for the empty one, which the
backtest never reaches with a recorded trade). -/
def minimumD : List ℚ → ℚ
  | [] => 0
  | x :: xs => xs.foldl min x

/-- `backtest_with_cost_cap(df_pred, horizon, signal_threshold, cost, cap)`
of `src/crypto_model_backtest.py`.  `equity.iloc[-1]` on an empty frame
raises (`IndexError`), embedded as the error case. -/
def backtest_with_cost_cap (rows : List PredRow) (horizon : ℕ)
    (signal_threshold cost cap : ℚ) : Except String StrategyMetrics :=
  let st := trade_loop rows horizon cost cap (signal_days rows signal_threshold)
    (List.replicate rows.length 1, 1, [])
  let equity := st.1
  let trades := st.2.2
  match equity.getLast? with
  | none => .error "single positional indexer is out-of-bounds"
  | some equity_last =>
    if trades.length = 0 then .ok ⟨0, 0, 0, 0, 0, 0, equity_last⟩
    else
      let wins := trades.filter (fun r => decide (0 < r))
      let losses := trades.filter (fun r => decide (r ≤ 0))
      let dd := List.zipWith (fun e r => e / r - 1) equity (cummax equity)
      .ok ⟨trades.length,
        (wins.length : ℚ) / (trades.length : ℚ),
        if wins.length = 0 then 0 else meanQ wins,
        if losses.length = 0 then 0 else meanQ losses,
        equity_last - 1,
        minimumD dd,
        equity_last⟩

/-- The close indices of the trades the signal loop records (ascending input;
a trailing signal stops the scan as the source's `break` does). -/
def tradeCloses (len horizon : ℕ) : List ℕ → List ℕ
  | [] => []
  | i :: rest => if i + horizon < len then (i + horizon) :: tradeCloses len horizon rest else []

/-- The raw returns the backtest records, read off the close rows. -/
def trade_returns (rows : List PredRow) (horizon : ℕ) (sigs : List ℕ) : List ℚ :=
  (tradeCloses rows.length horizon sigs).map
    (fun j => ((rows.get? j).getD ⟨0, 0⟩).future_ret)

/-- The per-trade growth factors `1 + cap*(raw - 2*cost)` the signal loop
compounds into the equity curve. -/
def trade_factors (rows : List PredRow) (horizon : ℕ) (cost cap : ℚ)
    (sigs : List ℕ) : List ℚ :=
  (tradeCloses rows.length horizon sigs).map
    (fun j => 1 + cap * (((rows.get? j).getD ⟨0, 0⟩).future_ret - 2 * cost))

/-! ## Online trainer: persisted state and `update` -/

/-- The persisted `state.json` as `load_state` can encounter it. -/
inductive StateFile where
  | missing : StateFile
  | corrupt : StateFile
  | parsed (last_dt : Option String) : StateFile
deriving DecidableEq

/-- `load_state(dir)` of `src/online_crypto_trainer.py`: `None` when the file
is missing or unreadable, else `json.load(f).get("last_dt")`. -/
def load_state : StateFile → Option String
  | .missing => none
  | .corrupt => none
  | .parsed o => o

/-- The per-symbol artifact directory: `model.joblib`, `scaler.joblib`,
`features.csv` snapshot and `state.json`.  Model and scaler internals live in
an external library, so their types are parameters. -/
structure Artifacts (M S : Type) where
  model : Option M
  scaler : Option S
  featuresCsv : Option (List LabeledRow)
  stateJson : StateFile

/-- `update_train(...)` of `src/online_crypto_trainer.py`.  The sklearn calls
are abstracted as parameters: `pfScaler` is `scaler.partial_fit`,
`transformS` is `scaler.transform`, `pfModel` is `model.partial_fit`, and
`dateOf` renders a row's bar index as the watermark date string.  The data
table is recomputed through the real pipeline; when it is empty the function
prints and returns with no writes, otherwise it loads both artifacts,
updates them (three incremental passes) and persists model, scaler, features
snapshot and watermark. -/
def update_train {M S : Type} (sq : ℚ → ℚ)
    (pfScaler : S → List (List ℚ) → S)
    (transformS : S → List (List ℚ) → List (List ℚ))
    (pfModel : M → List (List ℚ) → List ℤ → M)
    (dateOf : ℕ → String)
    (raw : List Bar) (horizon : ℕ) (threshold : ℚ)
    (arts : Artifacts M S) : Except String (Artifacts M S) :=
  let data := label_future (build_features sq raw) horizon threshold
  if data.isEmpty then .ok arts
  else
    match arts.model, arts.scaler with
    | some m, some s =>
      let X := data.map (fun r => featuresOf r.cells)
      let y := data.map (fun r => r.target)
      let s2 := pfScaler s X
      let Xs := transformS s2 X
      let m2 := (List.range 3).foldl (fun mm _ => pfModel mm Xs y) m
      let last_dt := dateOf (((data.getLast?).map (fun r => r.idx)).getD 0)
      .ok ⟨some m2, some s2, some data, .parsed (some last_dt)⟩
    | _, _ => .error "artifact load failed"

/-- Which branch the trainer's `main` takes in update mode. -/
inductive RunBranch (M S : Type) where
  | notInitialized : RunBranch M S
  | ran (r : Except String (Artifacts M S)) : RunBranch M S

/-- The `--mode update` branch of `main()` in `src/online_crypto_trainer.py`:
`load_state`; a falsy watermark (`None` or the empty string) prints the
"state bulunamadı, önce --mode init" message and `sys.exit(1)` with nothing
written; otherwise `since = last_dt - 5 days` (`minus5`), data is fetched
from `since` (`fetch`) and `update_train` runs.  The second component is the
artifact directory afterwards. -/
def main_update {M S : Type} (sq : ℚ → ℚ)
    (pfScaler : S → List (List ℚ) → S)
    (transformS : S → List (List ℚ) → List (List ℚ))
    (pfModel : M → List (List ℚ) → List ℤ → M)
    (dateOf : ℕ → String)
    (fetch : String → List Bar) (minus5 : String → String)
    (horizon : ℕ) (threshold : ℚ)
    (arts : Artifacts M S) : RunBranch M S × Artifacts M S :=
  match load_state arts.stateJson with
  | none => (.notInitialized, arts)
  | some last_dt =>
    if last_dt = "" then (.notInitialized, arts)
    else
      let r := update_train sq pfScaler transformS pfModel dateOf
        (fetch (minus5 last_dt)) horizon threshold arts
      (.ran r, match r with | .ok a => a | .error _ => arts)

/-! ## Scheduler -/

/-- The scheduler's persisted state record (`state/scheduler_state.json`). -/
structure SchedulerState where
  last_run_date : String
  done_symbols : List String
deriving DecidableEq

/-- What one `run_once_for_symbol` invocation amounts to for the batch:
either launching the subprocess raised, or it finished with an exit code.
`run_once_for_symbol` catches the launch exception and merely logs/notifies
a nonzero exit, so neither interrupts the loop. -/
inductive SymbolOutcome where
  | launch_error (msg : String) : SymbolOutcome
  | exit_code (rc : ℕ) : SymbolOutcome
deriving DecidableEq

/-- Observable step of a daily batch. -/
inductive SchedEvent where
  | attempt (sym : String) (out : SymbolOutcome) : SchedEvent
  | commit (st : SchedulerState) : SchedEvent
deriving DecidableEq

/-- The symbol loop of the daily batch (`for sym in symbols: if STOP: break;
run_once_for_symbol(sym)`), with the stop flag sampled before each symbol. -/
def run_symbols (outcome : String → SymbolOutcome) (stop : ℕ → Bool) :
    ℕ → List String → List SchedEvent
  | _, [] => []
  | i, s :: rest =>
    if stop i then []
    else .attempt s (outcome s) :: run_symbols outcome stop (i + 1) rest

/-- The triggered branch of `main()` in `scheduler.py`: run the symbol loop,
then set `last_run_date = today` and `done_symbols = symbols` and
`save_state`.  Returns the event trace and the persisted state. -/
def daily_batch (symbols : List String) (today : String)
    (outcome : String → SymbolOutcome) (stop : ℕ → Bool)
    (_st : SchedulerState) : List SchedEvent × SchedulerState :=
  let st2 : SchedulerState := ⟨today, symbols⟩
  (run_symbols outcome stop 0 symbols ++ [.commit st2], st2)

/-- The optional arguments declared by the Online Trainer's argument parser
(`argparse` in `main()` of `src/online_crypto_trainer.py`). -/
def trainer_opts : List String :=
  ["--mode", "--symbol", "--start", "--end", "--interval", "--horizon",
   "--threshold", "--artifacts"]

/-- The argument vector `run_once_for_symbol` in `scheduler.py` builds for the
trainer subprocess (after the interpreter and script path). -/
def scheduler_cmd_args (symbol interval horizon threshold artifacts cost cap
    signal_thresh : String) : List String :=
  ["--mode", "update", "--symbol", symbol, "--interval", interval,
   "--horizon", horizon, "--threshold", threshold, "--artifacts", artifacts,
   "--cost", cost, "--cap", cap] ++
  (if signal_thresh ≠ "" then ["--signal-threshold", signal_thresh] else [])

/-- Python `argparse` acceptance, modelled for a parser that declares only
single-valued `--long` options and no positionals: a `--` token must be an
unambiguous (prefix) match of a declared option and consumes the following
value; anything else makes `parse_args` error out (exit code 2), so
`update_train` is never reached. -/
def parse_opt_args (declared : List String) :
    List String → List (String × String) → Except String (List (String × String))
  | [], acc => .ok acc
  | t :: rest, acc =>
    if t.startsWith "--" then
      match declared.filter (fun d => t.isPrefixOf d) with
      | [d] =>
        match rest with
        | v :: rest2 => parse_opt_args declared rest2 (acc ++ [(d, v)])
        | [] => .error (String.append "argument expects one value: " t)
      | _ => .error (String.append "unrecognized arguments: " t)
    else .error (String.append "unrecognized arguments: " t)

/-! ## Helper lemmas -/

theorem run_symbols_no_stop (outcome : String → SymbolOutcome) (stop : ℕ → Bool)
    (h : ∀ i, stop i = false) :
    ∀ (k : ℕ) (symbols : List String),
      run_symbols outcome stop k symbols =
        symbols.map (fun s => SchedEvent.attempt s (outcome s)) := by
  intro k symbols
  induction symbols generalizing k with
  | nil => rfl
  | cons s rest ih => simp [run_symbols, h k, ih (k + 1)]

theorem getLast?_replicate_one : ∀ (n : ℕ), n ≠ 0 →
    (List.replicate n (1 : ℚ)).getLast? = some 1
  | 0, h => absurd rfl h
  | 1, _ => rfl
  | n + 2, _ => by
    have ih := getLast?_replicate_one (n + 1) (Nat.succ_ne_zero n)
    rw [List.replicate_succ, List.replicate_succ, List.getLast?_cons_cons,
      ← List.replicate_succ]
    exact ih

theorem signal_days_nil (rows : List PredRow) (thr : ℚ)
    (hall : ∀ r ∈ rows, r.proba < thr) : signal_days rows thr = [] := by
  unfold signal_days
  rw [List.filter_eq_nil_iff.mpr, List.map_nil]
  intro p hp
  have hmem : p.2 ∈ rows := by
    rcases List.mk_mem_enum_iff_getElem?.mp (by exact hp) with hg
    exact List.getElem?_mem hg
  simpa using not_le.mpr (hall p.2 hmem)

theorem length_suffix_mul (e : List ℚ) (j : ℕ) (f : ℚ) :
    (suffix_mul e j f).length = e.length := by
  simp [suffix_mul]

theorem get?_suffix_mul (e : List ℚ) (j : ℕ) (f : ℚ) (i : ℕ) :
    (suffix_mul e j f).get? i =
      (e.get? i).map (fun x => if j ≤ i then x * f else x) := by
  simp only [suffix_mul, List.get?_eq_getElem?, List.getElem?_map,
    List.getElem?_enum, Option.map_map]
  rfl

theorem getLast?_suffix_mul (e : List ℚ) (j : ℕ) (f : ℚ) (x : ℚ)
    (hj : j < e.length) (hx : e.getLast? = some x) :
    (suffix_mul e j f).getLast? = some (x * f) := by
  rw [List.getLast?_eq_getElem?] at hx
  rw [List.getLast?_eq_getElem?, length_suffix_mul, ← List.get?_eq_getElem?,
    get?_suffix_mul, List.get?_eq_getElem?, hx]
  have hle : j ≤ e.length - 1 := Nat.le_sub_one_of_lt hj
  simp [hle]

theorem tradeCloses_lt (len horizon : ℕ) :
    ∀ (sigs : List ℕ), ∀ j ∈ tradeCloses len horizon sigs, j < len := by
  intro sigs
  induction sigs with
  | nil => intro j hj; simp [tradeCloses] at hj
  | cons i rest ih =>
    intro j hj
    by_cases hc : i + horizon < len
    · rw [tradeCloses, if_pos hc] at hj
      rcases List.mem_cons.mp hj with h1 | h2
      · exact h1 ▸ hc
      · exact ih j h2
    · rw [tradeCloses, if_neg hc] at hj
      simp at hj

theorem trade_loop_trades (rows : List PredRow) (horizon : ℕ) (cost cap : ℚ) :
    ∀ (sigs : List ℕ) (e : List ℚ) (l : ℚ) (tr : List ℚ),
      (trade_loop rows horizon cost cap sigs (e, l, tr)).2.2 =
        tr ++ trade_returns rows horizon sigs := by
  intro sigs
  induction sigs with
  | nil => intro e l tr; simp [trade_loop, trade_returns, tradeCloses]
  | cons i rest ih =>
    intro e l tr
    by_cases hc : i + horizon < rows.length
    · simp only [trade_loop, if_pos hc]
      rw [ih]
      simp [trade_returns, tradeCloses, if_pos hc]
    · simp only [trade_loop, if_neg hc]
      simp [trade_returns, tradeCloses, if_neg hc]

theorem trade_loop_equity (rows : List PredRow) (horizon : ℕ) (cost cap : ℚ) :
    ∀ (sigs : List ℕ) (e : List ℚ) (l : ℚ),
      e.length = rows.length → e.getLast? = some l → l ≠ 0 →
      (∀ f ∈ trade_factors rows horizon cost cap sigs, f ≠ 0) →
      ∀ (tr : List ℚ),
        (trade_loop rows horizon cost cap sigs (e, l, tr)).1.getLast? =
          some (l * (trade_factors rows horizon cost cap sigs).prod) := by
  intro sigs
  induction sigs with
  | nil =>
    intro e l hlen hlast hl _ tr
    simp [trade_loop, trade_factors, tradeCloses, hlast]
  | cons i rest ih =>
    intro e l hlen hlast hl hf tr
    by_cases hc : i + horizon < rows.length
    · have hfc : trade_factors rows horizon cost cap (i :: rest) =
          (1 + cap * (((rows.get? (i + horizon)).getD ⟨0, 0⟩).future_ret -
            2 * cost)) :: trade_factors rows horizon cost cap rest := by
        simp [trade_factors, tradeCloses, if_pos hc]
      simp only [trade_loop, if_pos hc]
      set raw := ((rows.get? (i + horizon)).getD (⟨0, 0⟩ : PredRow)).future_ret
        with hraw
      set f0 := 1 + cap * (raw - 2 * cost) with hf0def
      have hf0 : f0 ≠ 0 := hf _ (hfc ▸ List.mem_cons_self _ _)
      have hdiv : l * f0 / l = f0 := mul_div_cancel_left₀ _ hl
      rw [hdiv]
      have hlast2 := getLast?_suffix_mul e (i + horizon) f0 l
        (by rw [hlen]; exact hc) hlast
      have hrec := ih (suffix_mul e (i + horizon) f0) (l * f0)
        (by rw [length_suffix_mul]; exact hlen) hlast2 (mul_ne_zero hl hf0)
        (fun f hmem => hf f (hfc ▸ List.mem_cons_of_mem _ hmem)) (tr ++ [raw])
      rw [hrec, hfc, List.prod_cons, mul_assoc]
    · simp only [trade_loop, if_neg hc]
      have hfc : trade_factors rows horizon cost cap (i :: rest) = [] := by
        simp [trade_factors, tradeCloses, if_neg hc]
      rw [hfc]
      simpa using hlast

theorem backtest_ok_equity (rows : List PredRow) (horizon : ℕ)
    (thr cost cap : ℚ) (m : StrategyMetrics)
    (hok : backtest_with_cost_cap rows horizon thr cost cap = .ok m)
    (hf : ∀ f ∈ trade_factors rows horizon cost cap (signal_days rows thr),
      f ≠ 0) :
    m.equity_last =
      (trade_factors rows horizon cost cap (signal_days rows thr)).prod ∧
    m.total_return =
      (trade_factors rows horizon cost cap (signal_days rows thr)).prod - 1 := by
  have hlen0 : rows.length ≠ 0 := by
    intro h0
    have hnil : rows = [] := List.length_eq_zero.mp h0
    subst hnil
    exact absurd hok (by simp [backtest_with_cost_cap, signal_days, trade_loop])
  have h1 := trade_loop_equity rows horizon cost cap (signal_days rows thr)
    (List.replicate rows.length 1) 1 (List.length_replicate _ _)
    (getLast?_replicate_one _ hlen0) one_ne_zero hf []
  have htr := trade_loop_trades rows horizon cost cap (signal_days rows thr)
    (List.replicate rows.length 1) 1 []
  rw [List.nil_append] at htr
  simp only [backtest_with_cost_cap] at hok
  rw [h1, htr] at hok
  by_cases hz : (trade_returns rows horizon (signal_days rows thr)).length = 0
  · have hcl : tradeCloses rows.length horizon (signal_days rows thr) = [] :=
      List.map_eq_nil_iff.mp (List.length_eq_zero.mp hz)
    have hfac : trade_factors rows horizon cost cap (signal_days rows thr)
        = [] := by simp [trade_factors, hcl]
    rw [hfac] at hok ⊢
    simp only [if_pos hz] at hok
    cases hok
    simp
  · simp only [if_neg hz] at hok
    cases hok
    simp

theorem prefixMap_take (f : List α → β) (l : List α) (k : ℕ) :
    prefixMap f (l.take k) = (prefixMap f l).take k := by
  unfold prefixMap
  rw [List.length_take, ← List.map_take, List.take_range]
  apply List.map_congr_left
  intro i hi
  have hik : i < min k l.length := List.mem_range.mp hi
  have hmin : min (i + 1) k = i + 1 := by omega
  rw [List.take_take, hmin]

theorem lift1_take (g : F → F) (a : List F) (k : ℕ) :
    lift1 g (a.take k) = (lift1 g a).take k := by
  unfold lift1
  rw [List.map_take]

theorem lift2_take (g : F → F → F) (a b : List F) (k : ℕ) :
    lift2 g (a.take k) (b.take k) = (lift2 g a b).take k := by
  unfold lift2
  rw [List.take_zipWith]

theorem zip3_take (g : F → F → F → F) :
    ∀ (a b c : List F) (k : ℕ),
      zip3 g (a.take k) (b.take k) (c.take k) = (zip3 g a b c).take k := by
  intro a
  induction a with
  | nil => intro b c k; simp [zip3]
  | cons x xs ih =>
    intro b c k
    cases b with
    | nil => cases c <;> cases k <;> simp [zip3]
    | cons y ys =>
      cases c with
      | nil => cases k <;> simp [zip3]
      | cons z zs =>
        cases k with
        | zero => simp [zip3]
        | succ k2 => simp [zip3, ih]

theorem colOpen_take (bars : List Bar) (k : ℕ) :
    colOpen (bars.take k) = (colOpen bars).take k := by
  unfold colOpen; rw [List.map_take]

theorem colHigh_take (bars : List Bar) (k : ℕ) :
    colHigh (bars.take k) = (colHigh bars).take k := by
  unfold colHigh; rw [List.map_take]

theorem colLow_take (bars : List Bar) (k : ℕ) :
    colLow (bars.take k) = (colLow bars).take k := by
  unfold colLow; rw [List.map_take]

theorem colClose_take (bars : List Bar) (k : ℕ) :
    colClose (bars.take k) = (colClose bars).take k := by
  unfold colClose; rw [List.map_take]

theorem colVolume_take (bars : List Bar) (k : ℕ) :
    colVolume (bars.take k) = (colVolume bars).take k := by
  unfold colVolume; rw [List.map_take]

theorem ewm_mean_take (a : ℚ) (s : List F) (k : ℕ) :
    ewm_mean a (s.take k) = (ewm_mean a s).take k := by
  unfold ewm_mean; rw [prefixMap_take]

theorem ema_take (s : List F) (n k : ℕ) :
    ema (s.take k) n = (ema s n).take k := by
  unfold ema; rw [ewm_mean_take]

theorem diffS_take (s : List F) (k : ℕ) :
    diffS (s.take k) = (diffS s).take k := by
  unfold diffS; rw [prefixMap_take]

theorem pct_change_take (s : List F) (n k : ℕ) :
    pct_change (s.take k) n = (pct_change s n).take k := by
  unfold pct_change; rw [prefixMap_take]

theorem shift1_take (s : List F) (k : ℕ) :
    shift1 (s.take k) = (shift1 s).take k := by
  unfold shift1; rw [prefixMap_take]

theorem rollingApply_take (n : ℕ) (agg : List ℚ → ℚ) (s : List F) (k : ℕ) :
    rollingApply n agg (s.take k) = (rollingApply n agg s).take k := by
  unfold rollingApply; rw [prefixMap_take]

theorem rolling_mean_take (n : ℕ) (s : List F) (k : ℕ) :
    rolling_mean n (s.take k) = (rolling_mean n s).take k := by
  unfold rolling_mean; rw [rollingApply_take]

theorem rolling_sum_take (n : ℕ) (s : List F) (k : ℕ) :
    rolling_sum n (s.take k) = (rolling_sum n s).take k := by
  unfold rolling_sum; rw [rollingApply_take]

theorem rolling_std0_take (sq : ℚ → ℚ) (n : ℕ) (s : List F) (k : ℕ) :
    rolling_std0 sq n (s.take k) = (rolling_std0 sq n s).take k := by
  unfold rolling_std0; rw [rollingApply_take]

theorem rolling_std1_take (sq : ℚ → ℚ) (n : ℕ) (s : List F) (k : ℕ) :
    rolling_std1 sq n (s.take k) = (rolling_std1 sq n s).take k := by
  unfold rolling_std1; rw [rollingApply_take]

theorem rsi_take (close : List F) (period k : ℕ) :
    rsi (close.take k) period = (rsi close period).take k := by
  simp only [rsi, diffS_take, lift1_take, ewm_mean_take, lift2_take]

theorem macd_take (close : List F) (fa sl sg k : ℕ) :
    macd (close.take k) fa sl sg =
      ((macd close fa sl sg).1.take k, (macd close fa sl sg).2.1.take k,
        (macd close fa sl sg).2.2.take k) := by
  simp only [macd, ema_take, ewm_mean_take, lift2_take]

theorem bollinger_take (sq : ℚ → ℚ) (close : List F) (p : ℕ) (kk : ℚ) (k : ℕ) :
    bollinger sq (close.take k) p kk =
      ((bollinger sq close p kk).1.take k,
       (bollinger sq close p kk).2.1.take k,
       (bollinger sq close p kk).2.2.1.take k,
       (bollinger sq close p kk).2.2.2.take k) := by
  simp only [bollinger, rolling_mean_take, rolling_std0_take, lift1_take,
    lift2_take]

theorem true_range_take (high low close : List F) (k : ℕ) :
    true_range (high.take k) (low.take k) (close.take k) =
      (true_range high low close).take k := by
  simp only [true_range, shift1_take, lift2_take, zip3_take]

theorem atr_take (high low close : List F) (p k : ℕ) :
    atr (high.take k) (low.take k) (close.take k) p =
      (atr high low close p).take k := by
  simp only [atr, true_range_take, rolling_mean_take]

theorem adx_take (high low close : List F) (p k : ℕ) :
    adx (high.take k) (low.take k) (close.take k) p =
      (adx high low close p).take k := by
  simp only [adx, diffS_take, lift1_take, lift2_take, true_range_take,
    rolling_mean_take, rolling_sum_take]

theorem build_features_cols_take (sq : ℚ → ℚ) (bars : List Bar) (k : ℕ) :
    build_features_cols sq (bars.take k) =
      (build_features_cols sq bars).map (fun c => c.take k) := by
  simp only [build_features_cols, colOpen_take, colHigh_take, colLow_take,
    colClose_take, colVolume_take, ema_take, rsi_take, macd_take,
    bollinger_take, atr_take, adx_take, pct_change_take, rollingApply_take,
    lift1_take, lift2_take, List.map_cons, List.map_nil]

theorem make_features_cols_take (sq : ℚ → ℚ) (bars : List Bar) (k : ℕ) :
    make_features_cols sq (bars.take k) =
      (make_features_cols sq bars).map (fun c => c.take k) := by
  simp only [make_features_cols, colOpen_take, colHigh_take, colLow_take,
    colClose_take, colVolume_take, ewm_mean_take, rsi_take, pct_change_take,
    rolling_mean_take, rolling_std1_take, lift1_take, lift2_take,
    List.map_cons, List.map_nil]

theorem length_rowsOf (n : ℕ) (cols : List (List F)) :
    (rowsOf n cols).length = n := by
  simp [rowsOf]

theorem get?_rowsOf (n : ℕ) (cols : List (List F)) (i : ℕ) (hi : i < n) :
    (rowsOf n cols).get? i =
      some (cols.map (fun c => (c.get? i).getD none)) := by
  simp [rowsOf, List.get?_eq_getElem?, List.getElem?_range hi]

theorem lookup_enumFrom_filter_lt (p : List F → Bool) :
    ∀ (l : List (List F)) (n a : ℕ), a < n →
      List.lookup a ((List.enumFrom n l).filter (fun q => p q.2)) = none := by
  intro l
  induction l with
  | nil => intro n a _; simp
  | cons y ys ih =>
    intro n a ha
    rw [show List.enumFrom n (y :: ys) = (n, y) :: List.enumFrom (n + 1) ys
      from rfl, List.filter_cons]
    have hne : (a == n) = false := beq_eq_false_iff_ne.mpr (Nat.ne_of_lt ha)
    by_cases hq : p y
    · rw [if_pos (by simpa using hq)]
      simp only [List.lookup, hne]
      exact ih (n + 1) a (by omega)
    · rw [if_neg (by simpa using hq)]
      exact ih (n + 1) a (by omega)

theorem lookup_enumFrom_filter (p : List F → Bool) :
    ∀ (l : List (List F)) (n t : ℕ),
      List.lookup (n + t)
          ((List.enumFrom n l).filter (fun q => p q.2)) =
        (l.get? t).bind (fun r => if p r then some r else none) := by
  intro l
  induction l with
  | nil => intro n t; simp
  | cons x xs ih =>
    intro n t
    rw [show List.enumFrom n (x :: xs) = (n, x) :: List.enumFrom (n + 1) xs
      from rfl, List.filter_cons]
    cases t with
    | zero =>
      by_cases hp : p x
      · rw [if_pos (by simpa using hp)]
        simp only [Nat.add_zero, List.lookup, beq_self_eq_true]
        simp [hp]
      · rw [if_neg (by simpa using hp)]
        rw [Nat.add_zero,
          lookup_enumFrom_filter_lt p xs (n + 1) n (Nat.lt_succ_self n)]
        simp [hp]
    | succ t2 =>
      have hne : ((n + (t2 + 1)) == n) = false :=
        beq_eq_false_iff_ne.mpr (by omega)
      have hih := ih (n + 1) t2
      rw [show n + 1 + t2 = n + (t2 + 1) from by omega] at hih
      by_cases hp : p x
      · rw [if_pos (by simpa using hp)]
        simp only [List.lookup, hne]
        rw [hih]
        rfl
      · rw [if_neg (by simpa using hp)]
        rw [hih]
        rfl

theorem lookup_dropnaIdx (rows : List (List F)) (t : ℕ) :
    List.lookup t (dropnaIdx rows) =
      (rows.get? t).bind
        (fun r => if r.all (fun x => x.isSome) then some r else none) := by
  have := lookup_enumFrom_filter (fun r => r.all (fun x => x.isSome)) rows 0 t
  simpa [dropnaIdx, List.enum] using this

theorem lookup_dropna_rowsOf_congr (cols1 cols2 : List (List F))
    (n1 n2 t : ℕ)
    (hc : cols1.map (fun c => c.take (t + 1)) =
      cols2.map (fun c => c.take (t + 1)))
    (hn : t < n1 ↔ t < n2) :
    List.lookup t (dropnaIdx (rowsOf n1 cols1)) =
      List.lookup t (dropnaIdx (rowsOf n2 cols2)) := by
  rw [lookup_dropnaIdx, lookup_dropnaIdx]
  by_cases ht : t < n1
  · have ht2 : t < n2 := hn.mp ht
    rw [get?_rowsOf _ _ _ ht, get?_rowsOf _ _ _ ht2]
    have hrow : cols1.map (fun c => (c.get? t).getD none) =
        cols2.map (fun c => (c.get? t).getD none) := by
      have h1 : cols1.map (fun c => (c.get? t).getD none) =
          (cols1.map (fun c => c.take (t + 1))).map
            (fun c => (c.get? t).getD none) := by
        rw [List.map_map]
        apply List.map_congr_left
        intro c _
        simp only [Function.comp]
        rw [List.get?_eq_getElem?, List.get?_eq_getElem?,
          List.getElem?_take_of_lt (Nat.lt_succ_self t)]
      have h2 : cols2.map (fun c => (c.get? t).getD none) =
          (cols2.map (fun c => c.take (t + 1))).map
            (fun c => (c.get? t).getD none) := by
        rw [List.map_map]
        apply List.map_congr_left
        intro c _
        simp only [Function.comp]
        rw [List.get?_eq_getElem?, List.get?_eq_getElem?,
          List.getElem?_take_of_lt (Nat.lt_succ_self t)]
      rw [h1, hc, ← h2]
    rw [hrow]
  · have ht2 : ¬ t < n2 := fun h => ht (hn.mpr h)
    have h1 : (rowsOf n1 cols1).get? t = none := by
      apply List.get?_eq_none.mpr
      rw [length_rowsOf]
      omega
    have h2 : (rowsOf n2 cols2).get? t = none := by
      apply List.get?_eq_none.mpr
      rw [length_rowsOf]
      omega
    rw [h1, h2]

theorem prod_le_prod_map (g1 g2 : ℕ → ℚ) :
    ∀ (js : List ℕ), (∀ j ∈ js, 0 < g2 j) → (∀ j ∈ js, g2 j ≤ g1 j) →
      (js.map g2).prod ≤ (js.map g1).prod := by
  intro js
  induction js with
  | nil => intro _ _; simp
  | cons j rest ih =>
    intro hpos hle
    simp only [List.map_cons, List.prod_cons]
    have hp2 : 0 < (rest.map g2).prod := by
      refine List.prod_pos ?_
      intro a ha
      rcases List.mem_map.mp ha with ⟨b, hb, hba⟩
      exact hba ▸ hpos b (List.mem_cons_of_mem _ hb)
    have hrec := ih (fun a ha => hpos a (List.mem_cons_of_mem _ ha))
      (fun a ha => hle a (List.mem_cons_of_mem _ ha))
    have h0 : (0 : ℚ) ≤ g1 j :=
      le_trans (le_of_lt (hpos j (List.mem_cons_self _ _)))
        (hle j (List.mem_cons_self _ _))
    exact mul_le_mul (hle j (List.mem_cons_self _ _)) hrec (le_of_lt hp2) h0

/-! ## Claim theorems -/

/-- Claim C1: on the worked example (closes
`[100,101,103,99,98,102,105,101,100,103]`, horizon 2, signals at 0 and 4,
threshold 0.5, cost 0, cap 1, `future_ret[t] = close[t+2]/close[t] - 1`),
the backtest does record exactly 2 trades closing at indices 2 and 6, but it
reads the raw return from the close row, so the recorded raw returns are
`close[4]/close[2]-1 = -5/103` and `close[8]/close[6]-1 = -1/21` (not
`103/100-1` and `105/98-1`) and the final equity is `280/309 ≈ 0.9061`, not
`≈ 1.1036`. -/
theorem c1_backtest_worked_example_end_state :
    trade_returns
      [⟨1, 103/100 - 1⟩, ⟨0, 99/101 - 1⟩, ⟨0, 98/103 - 1⟩, ⟨0, 102/99 - 1⟩,
       ⟨1, 105/98 - 1⟩, ⟨0, 101/102 - 1⟩, ⟨0, 100/105 - 1⟩, ⟨0, 103/101 - 1⟩,
       ⟨0, 0⟩, ⟨0, 0⟩] 2
      (signal_days
        [⟨1, 103/100 - 1⟩, ⟨0, 99/101 - 1⟩, ⟨0, 98/103 - 1⟩, ⟨0, 102/99 - 1⟩,
         ⟨1, 105/98 - 1⟩, ⟨0, 101/102 - 1⟩, ⟨0, 100/105 - 1⟩, ⟨0, 103/101 - 1⟩,
         ⟨0, 0⟩, ⟨0, 0⟩] (1/2)) = [-5/103, -1/21] ∧
    backtest_with_cost_cap
      [⟨1, 103/100 - 1⟩, ⟨0, 99/101 - 1⟩, ⟨0, 98/103 - 1⟩, ⟨0, 102/99 - 1⟩,
       ⟨1, 105/98 - 1⟩, ⟨0, 101/102 - 1⟩, ⟨0, 100/105 - 1⟩, ⟨0, 103/101 - 1⟩,
       ⟨0, 0⟩, ⟨0, 0⟩] 2 (1/2) 0 1 =
      .ok ⟨2, 0, 0, -104/2163, -29/309, -29/309, 280/309⟩ ∧
    ¬ ((280 : ℚ)/309 = (103/100) * (105/98)) := by
  refine ⟨by with_unfolding_all rfl, by with_unfolding_all rfl, by norm_num⟩

/-- Claim C2: the scheduler's per-symbol command line always contains
`--cost` (and `--cap`, `--signal-threshold`), none of which the Online
Trainer's argument parser declares, so the scheduled invocation is rejected
at argument parsing (exit 2) and never reaches `update_train`.  Shown at the
scheduler's default hyperparameters. -/
theorem c2_scheduler_cmd_rejected_by_trainer_cli :
    "--cost" ∈ scheduler_cmd_args "BTC-USD" "1d" "5" "0.03" "artifacts"
      "0.001" "0.3" "0.6" ∧
    "--cost" ∉ trainer_opts ∧
    parse_opt_args trainer_opts
      (scheduler_cmd_args "BTC-USD" "1d" "5" "0.03" "artifacts" "0.001" "0.3" "0.6")
      [] = .error "unrecognized arguments: --cost" := by
  refine ⟨by decide, by decide, by with_unfolding_all rfl⟩

/-- Claim C3: `label_future_return` does not drop the final `n` rows: with
`n = 1` on a 2-row table, both rows survive — the final row (which has no
forward data) is kept with `y_class = 0` and filled TP/SL, because `y_class`
is an integer column and `tp_pct`/`sl_pct` are `fillna`ed before the
`dropna(subset=...)`, making that `dropna` a no-op. -/
theorem c3_label_future_return_keeps_final_rows :
    label_future_return [⟨1⟩, ⟨1⟩] 1 (3/2500) (3/2500) =
      [⟨1, 0, 1/1000, 1/1000⟩, ⟨1, 0, 3/1000, 3/1000⟩] ∧
    (label_future_return [⟨1⟩, ⟨1⟩] 1 (3/2500) (3/2500)).length = 2 := by
  exact ⟨by with_unfolding_all rfl, by with_unfolding_all rfl⟩

/-- Claim C4: a daily batch attempts every configured symbol — each symbol's
outcome (launch exception or any exit code) has no effect on the rest of the
trace — and the completion state `{last_run_date = today, done_symbols}` is
committed exactly once, after all the attempts. -/
theorem c4_batch_attempts_all_then_commits (symbols : List String)
    (today : String) (outcome : String → SymbolOutcome) (stop : ℕ → Bool)
    (st : SchedulerState) (h : ∀ i, stop i = false) :
    daily_batch symbols today outcome stop st =
      (symbols.map (fun s => SchedEvent.attempt s (outcome s)) ++
        [SchedEvent.commit ⟨today, symbols⟩], ⟨today, symbols⟩) := by
  unfold daily_batch
  rw [run_symbols_no_stop outcome stop h 0 symbols]

/-- Witness for C4: three symbols, the middle one failing to launch with a
data error and the last exiting nonzero; all three are attempted and the
commit still follows. -/
theorem c4_batch_attempts_all_then_commits_witness :
    daily_batch ["BTC-USD", "ETH-USD", "BNB-USD"] "2026-10-12"
      (fun s => if s = "ETH-USD" then .launch_error "DataUnavailable"
        else if s = "BNB-USD" then .exit_code 1 else .exit_code 0)
      (fun _ => false) ⟨"2026-10-11", []⟩ =
      ([.attempt "BTC-USD" (.exit_code 0),
        .attempt "ETH-USD" (.launch_error "DataUnavailable"),
        .attempt "BNB-USD" (.exit_code 1),
        .commit ⟨"2026-10-12", ["BTC-USD", "ETH-USD", "BNB-USD"]⟩],
       ⟨"2026-10-12", ["BTC-USD", "ETH-USD", "BNB-USD"]⟩) := by
  have := c4_batch_attempts_all_then_commits
    ["BTC-USD", "ETH-USD", "BNB-USD"] "2026-10-12"
    (fun s => if s = "ETH-USD" then .launch_error "DataUnavailable"
      else if s = "BNB-USD" then .exit_code 1 else .exit_code 0)
    (fun _ => false) ⟨"2026-10-11", []⟩ (fun _ => rfl)
  simpa using this

/-- Claim C5: when the table recomputed by `update` over the safety window is
empty, `update_train` is a no-op success: it returns `.ok` and leaves the
model, scaler, features snapshot and watermark state untouched (for every
possible sklearn behaviour, abstracted by the function parameters). -/
theorem c5_update_on_empty_table_is_noop {M S : Type} (sq : ℚ → ℚ)
    (pfScaler : S → List (List ℚ) → S)
    (transformS : S → List (List ℚ) → List (List ℚ))
    (pfModel : M → List (List ℚ) → List ℤ → M)
    (dateOf : ℕ → String) (raw : List Bar) (horizon : ℕ) (threshold : ℚ)
    (arts : Artifacts M S)
    (h : label_future (build_features sq raw) horizon threshold = []) :
    update_train sq pfScaler transformS pfModel dateOf raw horizon threshold
      arts = .ok arts := by
  unfold update_train
  rw [h]
  rfl

/-- Witness for C5: an update whose recomputed window is empty returns
success with the artifact bundle unchanged. -/
theorem c5_update_on_empty_table_is_noop_witness :
    update_train (M := Unit) (S := Unit) (fun _ => 0) (fun s _ => s)
      (fun _ x => x) (fun m _ _ => m) (fun _ => "2024-01-01") [] 5 (3/100)
      ⟨some (), some (), none, .parsed (some "2024-01-01")⟩ =
      .ok ⟨some (), some (), none, .parsed (some "2024-01-01")⟩ := by
  exact c5_update_on_empty_table_is_noop (fun _ => 0) (fun s _ => s)
    (fun _ x => x) (fun m _ _ => m) (fun _ => "2024-01-01") [] 5 (3/100)
    ⟨some (), some (), none, .parsed (some "2024-01-01")⟩
    (by with_unfolding_all rfl)

/-- Claim C6: in update mode the trainer exits with the NotInitialized
condition — taking the error branch and touching no artifact — exactly when
no readable watermark exists (`load_state` yields `None`, or the falsy empty
string); with a readable watermark it proceeds to the update computation on
data fetched from the watermark-derived start date. -/
theorem c6_update_requires_init {M S : Type} (sq : ℚ → ℚ)
    (pfScaler : S → List (List ℚ) → S)
    (transformS : S → List (List ℚ) → List (List ℚ))
    (pfModel : M → List (List ℚ) → List ℤ → M)
    (dateOf : ℕ → String) (fetch : String → List Bar)
    (minus5 : String → String) (horizon : ℕ) (threshold : ℚ)
    (arts : Artifacts M S) :
    ((main_update sq pfScaler transformS pfModel dateOf fetch minus5 horizon
        threshold arts).1 = RunBranch.notInitialized ↔
      (load_state arts.stateJson = none ∨ load_state arts.stateJson = some "")) ∧
    ((load_state arts.stateJson = none ∨ load_state arts.stateJson = some "") →
      (main_update sq pfScaler transformS pfModel dateOf fetch minus5 horizon
        threshold arts).2 = arts) ∧
    (∀ s, load_state arts.stateJson = some s → s ≠ "" →
      (main_update sq pfScaler transformS pfModel dateOf fetch minus5 horizon
        threshold arts).1 =
        RunBranch.ran (update_train sq pfScaler transformS pfModel dateOf
          (fetch (minus5 s)) horizon threshold arts)) := by
  rcases hs : load_state arts.stateJson with _ | s
  · have hfst : (main_update sq pfScaler transformS pfModel dateOf fetch minus5
        horizon threshold arts).1 = RunBranch.notInitialized := by
      simp [main_update, hs]
    have hsnd : (main_update sq pfScaler transformS pfModel dateOf fetch minus5
        horizon threshold arts).2 = arts := by
      simp [main_update, hs]
    refine ⟨?_, fun _ => hsnd, ?_⟩
    · rw [hfst]; simp
    · intro u hu _
      cases hu
  · by_cases he : s = ""
    · subst he
      have hfst : (main_update sq pfScaler transformS pfModel dateOf fetch
          minus5 horizon threshold arts).1 = RunBranch.notInitialized := by
        simp [main_update, hs]
      have hsnd : (main_update sq pfScaler transformS pfModel dateOf fetch
          minus5 horizon threshold arts).2 = arts := by
        simp [main_update, hs]
      refine ⟨?_, fun _ => hsnd, ?_⟩
      · rw [hfst]; simp
      · intro u hu hne
        cases Option.some.inj hu
        exact absurd rfl hne
    · have hfst : (main_update sq pfScaler transformS pfModel dateOf fetch
          minus5 horizon threshold arts).1 =
          RunBranch.ran (update_train sq pfScaler transformS pfModel dateOf
            (fetch (minus5 s)) horizon threshold arts) := by
        simp [main_update, hs, he]
      refine ⟨?_, ?_, ?_⟩
      · rw [hfst]
        simp [he]
      · intro hfalsy
        rcases hfalsy with h1 | h2
        · cases h1
        · exact absurd (Option.some.inj h2) he
      · intro u hu hne
        cases Option.some.inj hu
        exact hfst

/-- Witness for C6: with a missing state file, update takes the
NotInitialized branch and the artifact directory is unchanged. -/
theorem c6_update_requires_init_witness :
    (main_update (M := Unit) (S := Unit) (fun _ => 0) (fun s _ => s)
        (fun _ x => x) (fun m _ _ => m) (fun _ => "") (fun _ => [])
        (fun d => d) 5 (3/100) ⟨some (), some (), none, .missing⟩).1 =
      RunBranch.notInitialized ∧
    (main_update (M := Unit) (S := Unit) (fun _ => 0) (fun s _ => s)
        (fun _ x => x) (fun m _ _ => m) (fun _ => "") (fun _ => [])
        (fun d => d) 5 (3/100) ⟨some (), some (), none, .missing⟩).2 =
      ⟨some (), some (), none, .missing⟩ := by
  have h := c6_update_requires_init (M := Unit) (S := Unit) (fun _ => 0)
    (fun s _ => s) (fun _ x => x) (fun m _ _ => m) (fun _ => "")
    (fun _ => []) (fun d => d) 5 (3/100) ⟨some (), some (), none, .missing⟩
  exact ⟨h.1.mpr (Or.inl rfl), h.2.1 (Or.inl rfl)⟩

/-- Counterexample for C7 as stated: the empty prediction table has zero
signals (vacuously every probability is below the threshold), yet the
backtest raises (`equity.iloc[-1]` on an empty frame) instead of returning a
neutral record. -/
theorem c7_empty_table_raises :
    backtest_with_cost_cap ([] : List PredRow) 5 (11/20) (1/1000) (3/10) =
      .error "single positional indexer is out-of-bounds" := by
  rfl

/-- Claim C7 (amended: for every *nonempty* prediction table): if every
probability is strictly below the signal threshold, the backtest returns the
neutral metrics record — 0 trades, all-zero statistics and final equity 1 —
without error. -/
theorem c7_zero_signals_neutral (rows : List PredRow) (horizon : ℕ)
    (thr cost cap : ℚ) (hne : rows ≠ [])
    (hall : ∀ r ∈ rows, r.proba < thr) :
    backtest_with_cost_cap rows horizon thr cost cap =
      .ok ⟨0, 0, 0, 0, 0, 0, 1⟩ := by
  unfold backtest_with_cost_cap
  rw [signal_days_nil rows thr hall]
  have hlen : rows.length ≠ 0 := fun h => hne (List.length_eq_zero.mp h)
  simp only [trade_loop, getLast?_replicate_one rows.length hlen]
  rfl

/-- Witness for C7's amended statement: a one-row all-sub-threshold table
yields the neutral record. -/
theorem c7_zero_signals_neutral_witness :
    backtest_with_cost_cap [⟨0, 0⟩] 5 (1/2) (1/1000) (3/10) =
      .ok ⟨0, 0, 0, 0, 0, 0, 1⟩ := by
  exact c7_zero_signals_neutral [⟨0, 0⟩] 5 (1/2) (1/1000) (3/10)
    (by simp) (by intro r hr; simp only [List.mem_singleton] at hr
                  rw [hr]; norm_num)

/-- Counterexample for C8 as stated (for *any* costs `c1 ≤ c2`): on a table
with two zero-return trades, cap 1 and costs `3/4 ≤ 1`, the per-trade growth
factors are negative, so the higher cost yields the *higher* total return
(`0 > -3/4`). -/
theorem c8_higher_cost_can_raise_return :
    backtest_with_cost_cap [⟨1, 0⟩, ⟨0, 0⟩, ⟨1, 0⟩, ⟨0, 0⟩] 1 (1/2) (3/4) 1 =
      .ok ⟨2, 0, 0, 0, -3/4, -3/2, 1/4⟩ ∧
    backtest_with_cost_cap [⟨1, 0⟩, ⟨0, 0⟩, ⟨1, 0⟩, ⟨0, 0⟩] 1 (1/2) 1 1 =
      .ok ⟨2, 0, 0, 0, 0, -2, 1⟩ ∧
    (3 : ℚ)/4 ≤ 1 ∧ ¬ ((0 : ℚ) ≤ -3/4) := by
  refine ⟨by with_unfolding_all rfl, by with_unfolding_all rfl,
    by norm_num, by norm_num⟩

/-- Claim C8 (amended: provided the cap is nonnegative and every potential
per-trade growth factor at the larger cost is positive, i.e.
`0 < 1 + cap*(future_ret - 2*c2)` on every row): for a fixed table, horizon,
signal threshold and cap, the reported total return and final equity with
cost `c2` are no greater than with cost `c1 ≤ c2`. -/
theorem c8_cost_monotone_with_positive_factors (rows : List PredRow)
    (horizon : ℕ) (thr cap c1 c2 : ℚ) (m1 m2 : StrategyMetrics)
    (hcap : 0 ≤ cap) (hc : c1 ≤ c2)
    (hpos : ∀ r ∈ rows, 0 < 1 + cap * (r.future_ret - 2 * c2))
    (h1 : backtest_with_cost_cap rows horizon thr c1 cap = .ok m1)
    (h2 : backtest_with_cost_cap rows horizon thr c2 cap = .ok m2) :
    m2.total_return ≤ m1.total_return ∧ m2.equity_last ≤ m1.equity_last := by
  have hposj : ∀ j ∈ tradeCloses rows.length horizon (signal_days rows thr),
      0 < 1 + cap * (((rows.get? j).getD ⟨0, 0⟩).future_ret - 2 * c2) := by
    intro j hj
    have hjlt := tradeCloses_lt rows.length horizon (signal_days rows thr) j hj
    rcases hg : rows.get? j with _ | r
    · exact absurd (List.get?_eq_none.mp hg) (not_le.mpr hjlt)
    · have hr : r ∈ rows := List.get?_mem hg
      simpa [hg] using hpos r hr
  have hcompare : ∀ j ∈ tradeCloses rows.length horizon (signal_days rows thr),
      1 + cap * (((rows.get? j).getD ⟨0, 0⟩).future_ret - 2 * c2) ≤
        1 + cap * (((rows.get? j).getD ⟨0, 0⟩).future_ret - 2 * c1) := by
    intro j _
    have hm : cap * (((rows.get? j).getD ⟨0, 0⟩).future_ret - 2 * c2) ≤
        cap * (((rows.get? j).getD ⟨0, 0⟩).future_ret - 2 * c1) := by
      apply mul_le_mul_of_nonneg_left _ hcap
      linarith
    linarith
  have hf2 : ∀ f ∈ trade_factors rows horizon c2 cap (signal_days rows thr),
      f ≠ 0 := by
    intro f hfm
    rcases List.mem_map.mp hfm with ⟨j, hj, rfl⟩
    exact ne_of_gt (hposj j hj)
  have hf1 : ∀ f ∈ trade_factors rows horizon c1 cap (signal_days rows thr),
      f ≠ 0 := by
    intro f hfm
    rcases List.mem_map.mp hfm with ⟨j, hj, rfl⟩
    exact ne_of_gt (lt_of_lt_of_le (hposj j hj) (hcompare j hj))
  obtain ⟨he1, ht1⟩ := backtest_ok_equity rows horizon thr c1 cap m1 h1 hf1
  obtain ⟨he2, ht2⟩ := backtest_ok_equity rows horizon thr c2 cap m2 h2 hf2
  have hprod : (trade_factors rows horizon c2 cap (signal_days rows thr)).prod ≤
      (trade_factors rows horizon c1 cap (signal_days rows thr)).prod :=
    prod_le_prod_map _ _ (tradeCloses rows.length horizon (signal_days rows thr))
      hposj hcompare
  constructor
  · rw [ht1, ht2]; linarith
  · rw [he1, he2]; exact hprod

/-- Witness for C8's amended statement: one trade with raw return 1/20; at
cost 0 the total return is 1/20, at cost 1/100 it is 3/100 ≤ 1/20, with
final equities ordered the same way. -/
theorem c8_cost_monotone_with_positive_factors_witness :
    ((3 : ℚ)/100 ≤ 1/20) ∧ ((103 : ℚ)/100 ≤ 21/20) := by
  exact c8_cost_monotone_with_positive_factors [⟨1, 1/10⟩, ⟨0, 1/20⟩] 1 (1/2)
    1 0 (1/100) ⟨1, 1, 1/20, 0, 1/20, 0, 21/20⟩ ⟨1, 1, 1/20, 0, 3/100, 0, 103/100⟩
    (by norm_num) (by norm_num)
    (by intro r hr
        rcases List.mem_cons.mp hr with h | h
        · rw [h]; norm_num
        · simp only [List.mem_singleton] at h; rw [h]; norm_num)
    (by with_unfolding_all rfl) (by with_unfolding_all rfl)

/-- Claim C10: whenever the backtest records at least one trade, a trade with
recorded raw return exactly 0 is classified as a loss: `hit_rate` counts only
strictly positive raw returns, `avg_win` averages the strictly positive ones
and `avg_loss` averages the non-positive ones (zeros included). -/
theorem c10_zero_raw_return_counts_as_loss (rows : List PredRow) (horizon : ℕ)
    (thr cost cap : ℚ) (m : StrategyMetrics)
    (hok : backtest_with_cost_cap rows horizon thr cost cap = .ok m)
    (hn : m.n_trades ≠ 0) :
    m.n_trades = (trade_returns rows horizon (signal_days rows thr)).length ∧
    m.hit_rate = (((trade_returns rows horizon (signal_days rows thr)).countP
      (fun r => decide (0 < r)) : ℚ)) /
      ((trade_returns rows horizon (signal_days rows thr)).length : ℚ) ∧
    m.avg_win = (if ((trade_returns rows horizon (signal_days rows thr)).filter
      (fun r => decide (0 < r))) = [] then 0 else
      meanQ ((trade_returns rows horizon (signal_days rows thr)).filter
        (fun r => decide (0 < r)))) ∧
    m.avg_loss = (if ((trade_returns rows horizon (signal_days rows thr)).filter
      (fun r => decide (r ≤ 0))) = [] then 0 else
      meanQ ((trade_returns rows horizon (signal_days rows thr)).filter
        (fun r => decide (r ≤ 0)))) := by
  have htr := trade_loop_trades rows horizon cost cap (signal_days rows thr)
    (List.replicate rows.length 1) 1 []
  rw [List.nil_append] at htr
  simp only [backtest_with_cost_cap] at hok
  rw [htr] at hok
  rcases hg : (trade_loop rows horizon cost cap (signal_days rows thr)
      (List.replicate rows.length 1, 1, [])).1.getLast? with _ | el
  · rw [hg] at hok
    simp at hok
  · rw [hg] at hok
    by_cases hz : (trade_returns rows horizon (signal_days rows thr)).length = 0
    · simp only [if_pos hz] at hok
      cases hok
      exact absurd rfl hn
    · simp only [if_neg hz] at hok
      cases hok
      refine ⟨rfl, ?_, ?_, ?_⟩
      · rw [List.countP_eq_length_filter]
      · simp [List.length_eq_zero]
      · simp [List.length_eq_zero]

/-- Claim C9: the feature pipeline has no lookahead.  For any two bar series
agreeing up to and including time `t` (so mutating bars strictly after `t`),
the feature row labelled `t` — present or dropped alike — is identical in
`build_features` (online trainer / batch backtest) and in `make_features`
(feature_engineering), for every square-root realization `sq`. -/
theorem c9_feature_pipeline_no_lookahead (sq : ℚ → ℚ) (b1 b2 : List Bar)
    (t : ℕ) (hpre : b1.take (t + 1) = b2.take (t + 1)) :
    List.lookup t (build_features sq b1) = List.lookup t (build_features sq b2) ∧
    List.lookup t (make_features sq b1) = List.lookup t (make_features sq b2) := by
  have hlen := congrArg List.length hpre
  simp only [List.length_take] at hlen
  have hn : t < b1.length ↔ t < b2.length := by omega
  have hc1 : (build_features_cols sq b1).map (fun c => c.take (t + 1)) =
      (build_features_cols sq b2).map (fun c => c.take (t + 1)) := by
    rw [← build_features_cols_take, ← build_features_cols_take, hpre]
  have hc2 : (make_features_cols sq b1).map (fun c => c.take (t + 1)) =
      (make_features_cols sq b2).map (fun c => c.take (t + 1)) := by
    rw [← make_features_cols_take, ← make_features_cols_take, hpre]
  exact ⟨lookup_dropna_rowsOf_congr _ _ _ _ t hc1 hn,
    lookup_dropna_rowsOf_congr _ _ _ _ t hc2 hn⟩

/-- Witness for C9: two concrete series agreeing on bars 0..2 but differing
(strictly) after index 2 — including different lengths — give the same
feature row for time 2 in both pipelines. -/
theorem c9_feature_pipeline_no_lookahead_witness :
    List.lookup 2 (build_features (fun _ => 0)
        [⟨1, 2, 0, 1, 5⟩, ⟨1, 3, 0, 2, 5⟩, ⟨1, 4, 0, 3, 5⟩, ⟨1, 5, 0, 4, 5⟩]) =
      List.lookup 2 (build_features (fun _ => 0)
        [⟨1, 2, 0, 1, 5⟩, ⟨1, 3, 0, 2, 5⟩, ⟨1, 4, 0, 3, 5⟩, ⟨9, 9, 9, 9, 9⟩,
         ⟨2, 2, 2, 2, 2⟩]) ∧
    List.lookup 2 (make_features (fun _ => 0)
        [⟨1, 2, 0, 1, 5⟩, ⟨1, 3, 0, 2, 5⟩, ⟨1, 4, 0, 3, 5⟩, ⟨1, 5, 0, 4, 5⟩]) =
      List.lookup 2 (make_features (fun _ => 0)
        [⟨1, 2, 0, 1, 5⟩, ⟨1, 3, 0, 2, 5⟩, ⟨1, 4, 0, 3, 5⟩, ⟨9, 9, 9, 9, 9⟩,
         ⟨2, 2, 2, 2, 2⟩]) := by
  exact c9_feature_pipeline_no_lookahead (fun _ => 0)
    [⟨1, 2, 0, 1, 5⟩, ⟨1, 3, 0, 2, 5⟩, ⟨1, 4, 0, 3, 5⟩, ⟨1, 5, 0, 4, 5⟩]
    [⟨1, 2, 0, 1, 5⟩, ⟨1, 3, 0, 2, 5⟩, ⟨1, 4, 0, 3, 5⟩, ⟨9, 9, 9, 9, 9⟩,
     ⟨2, 2, 2, 2, 2⟩] 2 (by with_unfolding_all rfl)

/-- Witness for C10: a single trade with raw return exactly 0 gives
`hit_rate = 0` (it is not a win) and contributes to the loss average. -/
theorem c10_zero_raw_return_counts_as_loss_witness :
    (1 : ℕ) = (trade_returns [⟨1, 1⟩, ⟨0, 0⟩] 1
      (signal_days [⟨1, 1⟩, ⟨0, 0⟩] (1/2))).length ∧
    (0 : ℚ) = (((trade_returns [⟨1, 1⟩, ⟨0, 0⟩] 1
      (signal_days [⟨1, 1⟩, ⟨0, 0⟩] (1/2))).countP
      (fun r => decide (0 < r)) : ℚ)) /
      ((trade_returns [⟨1, 1⟩, ⟨0, 0⟩] 1
        (signal_days [⟨1, 1⟩, ⟨0, 0⟩] (1/2))).length : ℚ) ∧
    (0 : ℚ) = (if ((trade_returns [⟨1, 1⟩, ⟨0, 0⟩] 1
      (signal_days [⟨1, 1⟩, ⟨0, 0⟩] (1/2))).filter
      (fun r => decide (0 < r))) = [] then 0 else
      meanQ ((trade_returns [⟨1, 1⟩, ⟨0, 0⟩] 1
        (signal_days [⟨1, 1⟩, ⟨0, 0⟩] (1/2))).filter
        (fun r => decide (0 < r)))) ∧
    (0 : ℚ) = (if ((trade_returns [⟨1, 1⟩, ⟨0, 0⟩] 1
      (signal_days [⟨1, 1⟩, ⟨0, 0⟩] (1/2))).filter
      (fun r => decide (r ≤ 0))) = [] then 0 else
      meanQ ((trade_returns [⟨1, 1⟩, ⟨0, 0⟩] 1
        (signal_days [⟨1, 1⟩, ⟨0, 0⟩] (1/2))).filter
        (fun r => decide (r ≤ 0)))) := by
  exact c10_zero_raw_return_counts_as_loss [⟨1, 1⟩, ⟨0, 0⟩] 1 (1/2) 0 1
    ⟨1, 0, 0, 0, 0, 0, 1⟩ (by with_unfolding_all rfl) (by decide)

end Cortexa



